import Mathlib

/-!
Verification development for the IntentKit XMTP agent bridge.

The TypeScript sources are embedded shallowly over `List Char` (JavaScript
strings are sequences of code points; `TextDecoder` with `stream kind true`
reassembles code points split across byte chunks, so chunk partitions are
modelled at code-point granularity).  `JSON.parse` / `JSON.stringify` are
modelled by an executable JSON parser and printer over an explicit value
type `JValue`.  Numbers are kept exact as `m * 10 ^ e`; double-precision
rounding (overflow to infinity, underflow to zero) is not modelled, and
JavaScript truthiness of a parsed number is modelled as `m ≠ 0`.
-/

set_option maxRecDepth 4000

/-- Boolean test that `pat` is an initial segment of `l`
(JavaScript `String.startsWith`). -/
def begB : List Char → List Char → Bool
  | [], _ => true
  | _ :: _, [] => false
  | p :: ps, c :: cs => p == c && begB ps cs

/-- Boolean test that `pat` is a final segment of `l`
(JavaScript `String.endsWith`). -/
def endB (pat l : List Char) : Bool :=
  begB pat.reverse l.reverse

/-- Boolean substring test (JavaScript `String.includes`). -/
def hasSeg : List Char → List Char → Bool
  | [], pat => begB pat []
  | c :: t, pat => begB pat (c :: t) || hasSeg t pat

/-- Leading-whitespace removal (first half of JavaScript `String.trim`). -/
def trimStart (l : List Char) : List Char :=
  l.dropWhile Char.isWhitespace

/-- Trailing-whitespace removal (second half of JavaScript `String.trim`). -/
def trimEnd (l : List Char) : List Char :=
  (l.reverse.dropWhile Char.isWhitespace).reverse

/-- JavaScript `String.trim` (ASCII whitespace; the Unicode extras do not
occur in the streams modelled here). -/
def trimL (l : List Char) : List Char :=
  trimEnd (trimStart l)

/-- Prepend a character onto the first piece of a split. -/
def consHeadC (c : Char) : List (List Char) → List (List Char)
  | [] => [[c]]
  | h :: t => (c :: h) :: t

/-- JavaScript `String.split` on a newline: always returns at least one
piece, and `"a\nb".split` gives `["a", "b"]`. -/
def splitNL : List Char → List (List Char)
  | [] => [[]]
  | c :: rest => if c = '\n' then [] :: splitNL rest else consHeadC c (splitNL rest)

/-- Glue a pending piece onto the head of a subsequent split. -/
def glueHead (x : List Char) : List (List Char) → List (List Char)
  | [] => [x]
  | h :: t => (x ++ h) :: t

/-- JavaScript `Array.join` with a separator. -/
def joinSep (sep : List Char) : List (List Char) → List Char
  | [] => []
  | [x] => x
  | x :: y :: t => x ++ sep ++ joinSep sep (y :: t)

/-- Decimal rendering of a natural number. -/
def natChars (n : Nat) : List Char :=
  (toString n).toList

/-! ## JSON values -/

/-- Parsed JSON values.  A number is `m * 10 ^ e` with the mantissa and
decimal exponent kept exact. -/
inductive JValue where
  | null : JValue
  | bool (b : Bool) : JValue
  | num (m : Int) (e : Int) : JValue
  | str (s : List Char) : JValue
  | arr (elems : List JValue) : JValue
  | obj (fields : List (List Char × JValue)) : JValue

/-- JavaScript truthiness of a JSON value. -/
def truthy : JValue → Bool
  | JValue.null => false
  | JValue.bool b => b
  | JValue.num m _ => m != 0
  | JValue.str s => !s.isEmpty
  | JValue.arr _ => true
  | JValue.obj _ => true

/-- Truthiness of a possibly-undefined value (`undefined` is falsy). -/
def truthyOpt : Option JValue → Bool
  | none => false
  | some v => truthy v

/-- Property lookup in an object literal: on duplicate keys `JSON.parse`
keeps the last occurrence. -/
def getFieldLast (fields : List (List Char × JValue)) (k : List Char) : Option JValue :=
  match fields.reverse.find? (fun p => p.1 == k) with
  | some p => some p.2
  | none => none

/-- JavaScript property access `v[k]`: `undefined` (here `none`) on
non-objects; access on `null` is handled separately at call sites since it
raises a `TypeError`. -/
def jsGet : JValue → List Char → Option JValue
  | JValue.obj fs, k => getFieldLast fs k
  | _, _ => none

/-! ## JSON.parse -/

/-- Digit span of the input. -/
def takeDigits (l : List Char) : List Char × List Char :=
  (l.takeWhile Char.isDigit, l.dropWhile Char.isDigit)

/-- Value of a digit string. -/
def digitsVal (ds : List Char) : Nat :=
  ds.foldl (fun a c => a * 10 + (c.toNat - '0'.toNat)) 0

/-- JSON insignificant whitespace removal (space, tab, newline, return). -/
def skipWs (l : List Char) : List Char :=
  l.dropWhile Char.isWhitespace

/-- Value of a hexadecimal digit (code points compared numerically). -/
def hexVal (c : Char) : Option Nat :=
  let n := c.toNat
  if 48 ≤ n && n ≤ 57 then some (n - 48)
  else if 97 ≤ n && n ≤ 102 then some (n - 87)
  else if 65 ≤ n && n ≤ 70 then some (n - 55)
  else none

/-- Body of a JSON string literal after the opening quote; returns the
decoded content and the input after the closing quote.  Unescaped control
characters are rejected, as in `JSON.parse`.  A `\u` escape that denotes a
lone surrogate is mapped to the replacement of `Char.ofNat` (such escapes
do not occur in the payloads modelled here). -/
def parseStrAux : List Char → Option (List Char × List Char)
  | [] => none
  | '"' :: rest => some ([], rest)
  | '\\' :: rest =>
    match rest with
    | [] => none
    | 'u' :: h1 :: h2 :: h3 :: h4 :: rest2 =>
      match hexVal h1, hexVal h2, hexVal h3, hexVal h4 with
      | some a, some b, some c, some d =>
        (parseStrAux rest2).map (fun p => (Char.ofNat (((a * 16 + b) * 16 + c) * 16 + d) :: p.1, p.2))
      | _, _, _, _ => none
    | e :: rest2 =>
      match
        (if e = '"' then some '"'
         else if e = '\\' then some '\\'
         else if e = '/' then some '/'
         else if e = 'b' then some (Char.ofNat 8)
         else if e = 'f' then some (Char.ofNat 12)
         else if e = 'n' then some '\n'
         else if e = 'r' then some '\r'
         else if e = 't' then some '\t'
         else none) with
      | some c => (parseStrAux rest2).map (fun p => (c :: p.1, p.2))
      | none => none
  | c :: rest =>
    if c.toNat < 32 then none
    else (parseStrAux rest).map (fun p => (c :: p.1, p.2))

/-- Exponent digits of a JSON number. -/
def parseExpDigits (mk : Int → JValue) (r : List Char) : Option (JValue × List Char) :=
  let sr : Int × List Char :=
    match r with
    | '+' :: rr => (1, rr)
    | '-' :: rr => (-1, rr)
    | _ => (1, r)
  let ds := takeDigits sr.2
  if ds.1.isEmpty then none else some (mk (sr.1 * (digitsVal ds.1 : Int)), ds.2)

/-- Optional exponent part of a JSON number. -/
def parseExpPart (neg : Bool) (ids fds : List Char) (r : List Char) :
    Option (JValue × List Char) :=
  let mk : Int → JValue := fun ex =>
    let mAbs : Int := (digitsVal (ids ++ fds) : Int)
    JValue.num (if neg then -mAbs else mAbs) (ex - (fds.length : Int))
  match r with
  | 'e' :: rr => parseExpDigits mk rr
  | 'E' :: rr => parseExpDigits mk rr
  | _ => some (mk 0, r)

/-- JSON number grammar: optional minus, integer part without a leading
zero, optional fraction, optional exponent. -/
def parseNum (input : List Char) : Option (JValue × List Char) :=
  let na : Bool × List Char :=
    match input with
    | '-' :: r => (true, r)
    | _ => (false, input)
  let ids := takeDigits na.2
  if ids.1.isEmpty then none
  else if 1 < ids.1.length && ids.1.headD '0' = '0' then none
  else
    match ids.2 with
    | '.' :: rr =>
      let fds := takeDigits rr
      if fds.1.isEmpty then none else parseExpPart na.1 ids.1 fds.1 fds.2
    | _ => parseExpPart na.1 ids.1 [] ids.2

mutual

/-- Fuel-indexed JSON value parser. -/
def parseVal : Nat → List Char → Option (JValue × List Char)
  | 0, _ => none
  | f + 1, input =>
    match input with
    | [] => none
    | 't' :: r => if r.take 3 = ['r', 'u', 'e'] then some (JValue.bool true, r.drop 3) else none
    | 'f' :: r => if r.take 4 = ['a', 'l', 's', 'e'] then some (JValue.bool false, r.drop 4) else none
    | 'n' :: r => if r.take 3 = ['u', 'l', 'l'] then some (JValue.null, r.drop 3) else none
    | '"' :: r => (parseStrAux r).map (fun p => (JValue.str p.1, p.2))
    | '\x7b' :: r =>
      (match skipWs r with
       | '\x7d' :: r2 => some (JValue.obj [], r2)
       | r1 => parseMembers f r1 [])
    | '[' :: r =>
      (match skipWs r with
       | ']' :: r2 => some (JValue.arr [], r2)
       | r1 => parseElems f r1 [])
    | _ => parseNum input

/-- Members of a JSON object after the opening brace. -/
def parseMembers : Nat → List Char → List (List Char × JValue) →
    Option (JValue × List Char)
  | 0, _, _ => none
  | f + 1, input, acc =>
    match input with
    | '"' :: r =>
      (match parseStrAux r with
       | none => none
       | some (k, r1) =>
         match skipWs r1 with
         | ':' :: r2 =>
           (match parseVal f (skipWs r2) with
            | none => none
            | some (v, r3) =>
              match skipWs r3 with
              | ',' :: r4 => parseMembers f (skipWs r4) (acc ++ [(k, v)])
              | '\x7d' :: r4 => some (JValue.obj (acc ++ [(k, v)]), r4)
              | _ => none)
         | _ => none)
    | _ => none

/-- Elements of a JSON array after the opening bracket. -/
def parseElems : Nat → List Char → List JValue → Option (JValue × List Char)
  | 0, _, _ => none
  | f + 1, input, acc =>
    match parseVal f input with
    | none => none
    | some (v, r) =>
      match skipWs r with
      | ',' :: r2 => parseElems f (skipWs r2) (acc ++ [v])
      | ']' :: r2 => some (JValue.arr (acc ++ [v]), r2)
      | _ => none

end

/-- JavaScript `JSON.parse`: a single value with only whitespace around it. -/
def jsonParse (s : List Char) : Option JValue :=
  match parseVal (2 * s.length + 2) (skipWs s) with
  | some (v, rest) => if (skipWs rest).isEmpty then some v else none
  | none => none

/-! ## StreamFrameExtractor: IntentKitClient.extractJsonFromBuffer -/

/-- Truncation of a line at its last closing brace (tail of the greedy
regex match of `/\{.*\}/` once the starting brace is fixed). -/
def upToLastRB (l : List Char) : List Char :=
  (l.reverse.dropWhile (fun c => c != '\x7d')).reverse

/-- Greedy leftmost match of the regex `/\{.*\}/` on a single line: starts
at the first opening brace that has a closing brace after it, ends at the
last closing brace of the line. -/
def braceMatch : List Char → Option (List Char)
  | [] => none
  | c :: rest =>
    if c = '\x7b' ∧ '\x7d' ∈ rest then some ('\x7b' :: upToLastRB rest)
    else braceMatch rest

/-- Frames contributed by one complete line of the buffer
(extractJsonFromBuffer, part_005 lines 296-319). -/
def processLine (line : List Char) : List (List Char) :=
  let t := trimL line
  if t.isEmpty then []
  else if begB "data: ".toList t then
    let j := t.drop 6
    if j == "[DONE]".toList || j == "null".toList then [] else [j]
  else if t.headD ' ' = '\x7b' ∧ t.getLastD ' ' = '\x7d' then [t]
  else if '\x7b' ∈ t ∧ '\x7d' ∈ t then (braceMatch t).toList
  else []

/-- IntentKitClient.extractJsonFromBuffer (part_005 lines 281-333):
split the buffer on newlines, keep the last (possibly incomplete) line as
the remainder, emit frames for each complete line, and additionally emit
the remainder early when it already parses as a complete JSON object. -/
def extractJsonFromBuffer (buffer : List Char) : List (List Char) × List Char :=
  let lines := splitNL buffer
  let completeLines := if 1 < lines.length then lines.dropLast else []
  let remaining0 := if 1 < lines.length then lines.getLastD [] else buffer
  let frames := (completeLines.map processLine).flatten
  let rt := trimL remaining0
  if begB ['\x7b'] rt && endB ['\x7d'] rt then
    match jsonParse rt with
    | some _ => (frames ++ [rt], [])
    | none => (frames, remaining0)
  else (frames, remaining0)

/-! ## ReplyEventDecoder: IntentKitClient.tryParseStreamChunk -/

/-- Decoded stream event as consumed by sendMessage: only the `data`,
`error` and `done` properties of the parsed value are ever read. -/
structure StreamResp where
  data : Option JValue
  error : Option JValue
  done : Option JValue

/-- JavaScript `x?.length > 0` as applied to the `skill_calls` and
`attachments` properties (arrays and strings have a length; a `length`
property of a plain object is not modelled, such payloads do not occur). -/
def lenGt0 : Option JValue → Bool
  | some (JValue.arr l) => decide (0 < l.length)
  | some (JValue.str s) => decide (0 < s.length)
  | _ => false

/-- Rule (2) of the decoder: a bare message object with an `author_type`
and non-trivial content is wrapped as a data event with `done kind false`
(part_005 lines 352-362). -/
def wrapMsg (v : JValue) : Option StreamResp :=
  if truthyOpt (jsGet v "author_type".toList) &&
      (truthyOpt (jsGet v "message".toList) ||
        lenGt0 (jsGet v "skill_calls".toList) ||
        lenGt0 (jsGet v "attachments".toList)) then
    some ⟨some v, none, some (JValue.bool false)⟩
  else none

/-- Decoding of an already-parsed chunk (part_005 lines 345-380).  Rule
(1) fires when `data` is truthy, or `error` is truthy, or `done` is
present with any value; rule (2) wraps a bare message; rule (3) wraps the
first element of a non-empty array (property access on a `null` first
element raises and is caught, giving no event). -/
def decodeParsed (v : JValue) : Option StreamResp :=
  if truthyOpt (jsGet v "data".toList) || truthyOpt (jsGet v "error".toList) ||
      (jsGet v "done".toList).isSome then
    some ⟨jsGet v "data".toList, jsGet v "error".toList, jsGet v "done".toList⟩
  else
    match wrapMsg v with
    | some resp => some resp
    | none =>
      match v with
      | JValue.arr (JValue.null :: _) => none
      | JValue.arr (x :: _) => wrapMsg x
      | _ => none

/-- IntentKitClient.tryParseStreamChunk (part_005 lines 338-386): gate on
the sentinel strings, parse as JSON (a parse failure or a `TypeError` from
property access on a parsed `null` is caught and gives no event), then
decode. -/
def tryParseStreamChunk (js : List Char) : Option StreamResp :=
  if js.isEmpty || js == "[DONE]".toList || js == "null".toList then none
  else
    match jsonParse js with
    | none => none
    | some JValue.null => none
    | some v => decodeParsed v

/-! ## BackendGateway: IntentKitClient.sendMessage -/

/-- Records yielded for one decoded event inside the frame loop: a truthy
`data` property is yielded (part_005 line 243). -/
def dataRecs (e : StreamResp) : List JValue :=
  match e.data with
  | some v => if truthy v then [v] else []
  | none => []

/-- Frame loop of sendMessage (part_005 lines 231-255): frames that do not
decode are skipped; a truthy `error` skips the whole event via `continue`;
a truthy `data` is yielded; a truthy `done` returns from the generator
(the Boolean marks that the generator returned). -/
def consumeFrames : List (List Char) → List JValue × Bool
  | [] => ([], false)
  | f :: fs =>
    match tryParseStreamChunk f with
    | none => consumeFrames fs
    | some e =>
      if truthyOpt e.error then consumeFrames fs
      else if truthyOpt e.done then (dataRecs e, true)
      else
        let r := consumeFrames fs
        (dataRecs e ++ r.1, r.2)

/-- Chunk loop of sendMessage (part_005 lines 196-256): append each chunk
to the buffer, extract frames, consume them; a `done` event stops the loop
with the remaining chunks unread.  Returns the yielded records, whether
the generator returned on a done event, and the final buffer. -/
def chunkRecords (buf : List Char) : List (List Char) → List JValue × Bool × List Char
  | [] => ([], false, buf)
  | c :: rest =>
    let ex := extractJsonFromBuffer (buf ++ c)
    match consumeFrames ex.1 with
    | (recs, true) => (recs, true, ex.2)
    | (recs, false) =>
      let r := chunkRecords ex.2 rest
      (recs ++ r.1, r.2.1, r.2.2)

/-- End-of-stream flush (part_005 lines 204-222): if the remaining buffer
is non-blank it is decoded once; an `error` event yields nothing, else a
truthy `data` is yielded; a `done` flag is ignored here. -/
def flushRecords (buf : List Char) : List JValue :=
  if (trimL buf).isEmpty then []
  else
    match tryParseStreamChunk (trimL buf) with
    | none => []
    | some e => if truthyOpt e.error then [] else dataRecs e

/-- Synthetic system record yielded by the catch block of sendMessage
(part_005 lines 266-275). -/
def sysRec (msg : List Char) : JValue :=
  JValue.obj
    [("message".toList, JValue.str ("Failed to process your request: ".toList ++ msg)),
     ("author_type".toList, JValue.str "system".toList)]

/-- Fate of the byte stream after the delivered chunks: it ends, or the
next read raises, or the 30-second ceiling breaks the loop. -/
inductive StreamTail where
  | eof : StreamTail
  | throwAfter (msg : List Char) : StreamTail
  | timeout : StreamTail

/-- Outcome of the streaming POST: network failure, non-2xx status, a
response with no body, or a body delivering the given chunks. -/
inductive FetchOutcome where
  | netErr (msg : List Char) : FetchOutcome
  | httpFail (status : Nat) (statusText errorText : List Char) : FetchOutcome
  | noBody : FetchOutcome
  | ok (chunks : List (List Char)) (tail : StreamTail) : FetchOutcome

/-- Streaming phase of sendMessage once a body is available: run the chunk
loop; on normal end of stream flush the buffer; a read failure propagates
to the outer catch which yields one synthetic system record; a timeout
breaks the loop with no flush; a done event returns directly. -/
def sendStreamRecords (chunks : List (List Char)) (tail : StreamTail) : List JValue :=
  let r := chunkRecords [] chunks
  if r.2.1 then r.1
  else
    match tail with
    | StreamTail.eof => r.1 ++ flushRecords r.2.2
    | StreamTail.throwAfter m => r.1 ++ [sysRec m]
    | StreamTail.timeout => r.1

/-- Error text thrown for a non-2xx response (part_005 line 177). -/
def apiFailMsg (status : Nat) (statusText errorText : List Char) : List Char :=
  "API request failed: ".toList ++ natChars status ++ [' '] ++ statusText ++
    " - ".toList ++ errorText

/-- Message of the exception reaching the catch block of sendMessage
before any chunk is read, if one is raised there. -/
def failureText (chatRes : Except (List Char) (List Char)) (fo : FetchOutcome) :
    Option (List Char) :=
  match chatRes with
  | Except.error m => some m
  | Except.ok _ =>
    match fo with
    | FetchOutcome.netErr m => some m
    | FetchOutcome.httpFail st stx et => some (apiFailMsg st stx et)
    | FetchOutcome.noBody => some "No response body received".toList
    | FetchOutcome.ok _ _ => none

/-- IntentKitClient.sendMessage (part_005 lines 143-276) as the list of
records the async generator yields, given the chat-id resolution outcome
and the behaviour of the streaming POST.  Every throw site is inside the
top-level try, whose catch yields exactly one synthetic system record. -/
def sendMessageRecords (chatRes : Except (List Char) (List Char)) (fo : FetchOutcome) :
    List JValue :=
  match chatRes with
  | Except.error m => [sysRec m]
  | Except.ok _ =>
    match fo with
    | FetchOutcome.netErr m => [sysRec m]
    | FetchOutcome.httpFail st stx et => [sysRec (apiFailMsg st stx et)]
    | FetchOutcome.noBody => [sysRec "No response body received".toList]
    | FetchOutcome.ok chunks tail => sendStreamRecords chunks tail

/-- Records produced with every failure suffix removed: the reference for
the decomposition of `sendMessageRecords`. -/
def cleanRecords (chatRes : Except (List Char) (List Char)) (fo : FetchOutcome) :
    List JValue :=
  match chatRes with
  | Except.error _ => []
  | Except.ok _ =>
    match fo with
    | FetchOutcome.ok chunks tail =>
      let r := chunkRecords [] chunks
      if r.2.1 then r.1
      else
        match tail with
        | StreamTail.eof => r.1 ++ flushRecords r.2.2
        | _ => r.1
    | _ => []

/-- The `author_type` property of a record, when it is a string. -/
def authorOf (v : JValue) : Option (List Char) :=
  match jsGet v "author_type".toList with
  | some (JValue.str s) => some s
  | _ => none

/-- The `message` property of a record, when it is a string. -/
def messageOf (v : JValue) : Option (List Char) :=
  match jsGet v "message".toList with
  | some (JValue.str s) => some s
  | _ => none

/-- Shape of the synthetic failure record of the catch block. -/
def isFailureRec (v : JValue) : Bool :=
  authorOf v == some "system".toList &&
    (match messageOf v with
     | some m => begB "Failed to process your request: ".toList m
     | none => false)

/-! ## Chunk pipeline for the extractor and decoder (claim C1) -/

/-- One read iteration of the stream loop at the extractor level: append
the chunk to the buffer and extract frames. -/
def feedChunk (st : List (List Char) × List Char) (c : List Char) :
    List (List Char) × List Char :=
  let ex := extractJsonFromBuffer (st.2 ++ c)
  (st.1 ++ ex.1, ex.2)

/-- Frames extracted from a chunked stream together with the final buffer. -/
def runExtractor (chunks : List (List Char)) : List (List Char) × List Char :=
  chunks.foldl feedChunk ([], [])

/-- Stream events produced by the extractor followed by the decoder, with
the end-of-stream flush decoding the trimmed final buffer once. -/
def pipelineEvents (chunks : List (List Char)) : List StreamResp :=
  let r := runExtractor chunks
  r.1.filterMap tryParseStreamChunk ++
    (if (trimL r.2).isEmpty then [] else (tryParseStreamChunk (trimL r.2)).toList)

/-- The part of the stream after its last newline. -/
def lastLineOf (x : List Char) : List Char :=
  (splitNL x).getLastD []

/-- Frames contributed by the complete (newline-terminated) lines of a
stream. -/
def canonFrames (x : List Char) : List (List Char) :=
  ((splitNL x).dropLast.map processLine).flatten

/-- A line of a well-formed SSE stream: blank, or an SSE data line. -/
def sseLine (l : List Char) : Prop :=
  trimL l = [] ∨ begB "data: ".toList (trimL l) = true

/-- A well-formed SSE stream: every line is blank or a data line. -/
def sseStream (s : List Char) : Prop :=
  ∀ l ∈ splitNL s, sseLine l

lemma consHeadC_ne_nil (c : Char) (l : List (List Char)) : consHeadC c l ≠ [] := by
  cases l <;> simp [consHeadC]

lemma glueHead_ne_nil (x : List Char) (l : List (List Char)) : glueHead x l ≠ [] := by
  cases l <;> simp [glueHead]

lemma splitNL_ne_nil (x : List Char) : splitNL x ≠ [] := by
  induction x with
  | nil => simp [splitNL]
  | cons c rest ih =>
    simp only [splitNL]
    split
    · simp
    · exact consHeadC_ne_nil _ _

lemma getLastD_mem {α : Type} {l : List α} (h : l ≠ []) (d : α) : l.getLastD d ∈ l := by
  induction l generalizing d with
  | nil => exact absurd rfl h
  | cons y t ih =>
    rw [List.getLastD_cons]
    cases ht : t with
    | nil => simp [ht]
    | cons z t2 =>
      have := ih (by simp [ht]) y
      rw [ht] at this
      exact List.mem_cons_of_mem _ (ht ▸ this)

lemma splitNL_mem_no_nl : ∀ {x : List Char} {l : List Char}, l ∈ splitNL x → '\n' ∉ l := by
  intro x
  induction x with
  | nil => intro l hl; simp [splitNL] at hl; simp [hl]
  | cons c rest ih =>
    intro l hl
    simp only [splitNL] at hl
    by_cases hc : c = '\n'
    · rw [if_pos hc] at hl
      rcases List.mem_cons.mp hl with h | h
      · simp [h]
      · exact ih h
    · rw [if_neg hc] at hl
      cases hrest : splitNL rest with
      | nil => exact absurd hrest (splitNL_ne_nil rest)
      | cons a t =>
        rw [hrest] at hl
        simp only [consHeadC] at hl
        rcases List.mem_cons.mp hl with h | h
        · subst h
          intro hmem
          rcases List.mem_cons.mp hmem with h2 | h2
          · exact hc h2.symm
          · exact ih (hrest ▸ List.mem_cons_self a t) h2
        · exact ih (hrest ▸ List.mem_cons_of_mem a h)

lemma splitNL_eq_single {x : List Char} (h : '\n' ∉ x) : splitNL x = [x] := by
  induction x with
  | nil => rfl
  | cons c rest ih =>
    have hc : ¬ c = '\n' := fun hc => h (hc ▸ List.mem_cons_self c rest)
    have hr : '\n' ∉ rest := fun hm => h (List.mem_cons_of_mem c hm)
    simp only [splitNL, if_neg hc, ih hr, consHeadC]

lemma splitNL_len_one {x : List Char} (h : (splitNL x).length = 1) : splitNL x = [x] := by
  induction x with
  | nil => rfl
  | cons c rest ih =>
    by_cases hc : c = '\n'
    · exfalso
      simp only [splitNL, if_pos hc, List.length_cons] at h
      have : splitNL rest ≠ [] := splitNL_ne_nil rest
      have : 1 ≤ (splitNL rest).length := List.length_pos.mpr this
      omega
    · simp only [splitNL, if_neg hc] at h ⊢
      cases hrest : splitNL rest with
      | nil => exact absurd hrest (splitNL_ne_nil rest)
      | cons a t =>
        rw [hrest] at h
        simp only [consHeadC, List.length_cons] at h
        have ht : t = [] := List.length_eq_zero.mp (by omega)
        subst ht
        have := ih (by rw [hrest]; rfl)
        rw [hrest] at this
        have ha : a = rest := by simpa using this
        subst ha
        simp [consHeadC]

lemma dropLast_cons_ne {α : Type} (x : α) {l : List α} (h : l ≠ []) :
    (x :: l).dropLast = x :: l.dropLast := by
  cases l with
  | nil => exact absurd rfl h
  | cons y t => rfl

lemma getLastD_cons_ne {α : Type} (x : α) {l : List α} (h : l ≠ []) (d : α) :
    (x :: l).getLastD d = l.getLastD d := by
  cases l with
  | nil => exact absurd rfl h
  | cons y t => simp [List.getLastD_cons]

lemma dropLast_append_ne {α : Type} {B : List α} (h : B ≠ []) (A : List α) :
    (A ++ B).dropLast = A ++ B.dropLast := by
  induction A with
  | nil => rfl
  | cons x A2 ih =>
    have hne : A2 ++ B ≠ [] := by
      intro hh
      exact h (List.append_eq_nil.mp hh).2
    rw [List.cons_append, dropLast_cons_ne x hne, ih, List.cons_append]

lemma getLastD_append_ne {α : Type} {B : List α} (h : B ≠ []) (A : List α) (d : α) :
    (A ++ B).getLastD d = B.getLastD d := by
  induction A with
  | nil => rfl
  | cons x A2 ih =>
    have hne : A2 ++ B ≠ [] := by
      intro hh
      exact h (List.append_eq_nil.mp hh).2
    rw [List.cons_append, getLastD_cons_ne x hne, ih]

lemma splitNL_append (a b : List Char) :
    splitNL (a ++ b) =
      (splitNL a).dropLast ++ glueHead ((splitNL a).getLastD []) (splitNL b) := by
  induction a with
  | nil =>
    cases hb : splitNL b with
    | nil => exact absurd hb (splitNL_ne_nil b)
    | cons hb0 tb => simp [splitNL, glueHead, hb]
  | cons c a2 ih =>
    rw [List.cons_append]
    by_cases hc : c = '\n'
    · subst hc
      have hne := splitNL_ne_nil a2
      have e1 : ∀ y : List Char, splitNL ('\n' :: y) = [] :: splitNL y := by
        intro y
        simp [splitNL]
      rw [e1, e1, ih, dropLast_cons_ne _ hne, getLastD_cons_ne _ hne, List.cons_append]
    · have e2 : ∀ y : List Char, splitNL (c :: y) = consHeadC c (splitNL y) := by
        intro y
        simp [splitNL, hc]
      rw [e2, e2, ih]
      cases hrest : splitNL a2 with
      | nil => exact absurd hrest (splitNL_ne_nil a2)
      | cons x t =>
        cases t with
        | nil =>
          cases hb : splitNL b with
          | nil => exact absurd hb (splitNL_ne_nil b)
          | cons hb0 tb => simp [consHeadC, glueHead]
        | cons y t2 =>
          cases hb : splitNL b with
          | nil => exact absurd hb (splitNL_ne_nil b)
          | cons hb0 tb =>
            simp [consHeadC, glueHead, List.getLastD_cons, List.dropLast]

lemma dropWhile_append_single {p : Char → Bool} {x : Char} (hx : p x = false)
    (u : List Char) : (u ++ [x]).dropWhile p = u.dropWhile p ++ [x] := by
  induction u with
  | nil => simp [List.dropWhile, hx]
  | cons y u2 ih =>
    by_cases hy : p y
    · simp [List.dropWhile, hy, ih]
    · simp [List.dropWhile, hy]

lemma trimEnd_cons_not_ws {c : Char} (hc : c.isWhitespace = false) (xs : List Char) :
    trimEnd (c :: xs) = c :: trimEnd xs := by
  unfold trimEnd
  rw [List.reverse_cons, dropWhile_append_single hc, List.reverse_append]
  simp

lemma trimStart_append_of_ne {a : List Char} (t : List Char) (h : trimStart a ≠ []) :
    trimStart (a ++ t) = trimStart a ++ t := by
  induction a with
  | nil => exact absurd rfl h
  | cons c a2 ih =>
    by_cases hc : c.isWhitespace
    · have h2 : trimStart a2 ≠ [] := by
        simpa [trimStart, List.dropWhile, hc] using h
      simp only [trimStart, List.cons_append, List.dropWhile, hc] at *
      exact ih h2
    · simp [trimStart, List.dropWhile, hc]

lemma dropWhile_head_false {p : Char → Bool} {x : List Char} :
    ∀ {c : Char} {u : List Char}, x.dropWhile p = c :: u → p c = false := by
  induction x with
  | nil => intro c u h; cases h
  | cons y x2 ih =>
    intro c u h
    by_cases hy : p y
    · rw [List.dropWhile_cons_of_pos hy] at h
      exact ih h
    · rw [List.dropWhile_cons_of_neg hy] at h
      cases h
      simpa using hy

lemma trim_head_agree {a t l : List Char} (hl : a ++ t = l) (ha : trimL a ≠ []) :
    ∃ c as1 ls1, c.isWhitespace = false ∧ trimL a = c :: as1 ∧ trimL l = c :: ls1 := by
  have hsa : trimStart a ≠ [] := by
    intro h
    exact ha (by simp [trimL, h, trimEnd])
  cases hstart : trimStart a with
  | nil => exact absurd hstart hsa
  | cons c u =>
    have hcw : c.isWhitespace = false := dropWhile_head_false hstart
    refine ⟨c, trimEnd u, trimEnd (u ++ t), hcw, ?_, ?_⟩
    · rw [trimL, hstart, trimEnd_cons_not_ws hcw]
    · subst hl
      rw [trimL, trimStart_append_of_ne t hsa, hstart, List.cons_append,
        trimEnd_cons_not_ws hcw]

lemma no_brace_of_sse_line {a t l : List Char} (hl : a ++ t = l) (hsse : sseLine l) :
    begB ['\x7b'] (trimL a) = false := by
  by_cases ha : trimL a = []
  · rw [ha]
    rfl
  · obtain ⟨c, as1, ls1, hcw, hta, htl⟩ := trim_head_agree hl ha
    have hc : c = 'd' := by
      cases hsse with
      | inl h0 => rw [h0] at htl; cases htl
      | inr hd =>
        rw [htl] at hd
        have hpat : "data: ".toList = 'd' :: "ata: ".toList := rfl
        rw [hpat] at hd
        simp only [begB, Bool.and_eq_true, beq_iff_eq] at hd
        exact hd.1.symm
    rw [hta, hc]
    simp [begB]

lemma lastLine_line_part {q r s : List Char} (h : q ++ r = s) :
    ∃ l t, l ∈ splitNL s ∧ lastLineOf q ++ t = l := by
  subst h
  rw [splitNL_append q r]
  cases hb : splitNL r with
  | nil => exact absurd hb (splitNL_ne_nil r)
  | cons hb0 tb =>
    refine ⟨lastLineOf q ++ hb0, hb0, ?_, rfl⟩
    simp [glueHead, lastLineOf]

lemma extract_of_no_brace (buffer : List Char)
    (h : begB ['\x7b'] (trimL (lastLineOf buffer)) = false) :
    extractJsonFromBuffer buffer = (canonFrames buffer, lastLineOf buffer) := by
  unfold extractJsonFromBuffer
  by_cases hlen : 1 < (splitNL buffer).length
  · have hrem : (if 1 < (splitNL buffer).length then (splitNL buffer).getLastD [] else buffer)
        = lastLineOf buffer := by
      rw [if_pos hlen]
      rfl
    simp only [hrem, if_pos hlen, h, Bool.false_and, Bool.false_eq_true, if_false]
    rfl
  · have h1 : (splitNL buffer).length = 1 := by
      have h2 : splitNL buffer ≠ [] := splitNL_ne_nil buffer
      have h3 : 0 < (splitNL buffer).length := List.length_pos.mpr h2
      omega
    have h2 : splitNL buffer = [buffer] := splitNL_len_one h1
    have hbl : lastLineOf buffer = buffer := by
      rw [lastLineOf, h2]
      rfl
    rw [hbl] at h
    simp only [if_neg hlen, h, Bool.false_and, Bool.false_eq_true, if_false]
    rw [canonFrames, h2, hbl]
    rfl

lemma feedChunk_step {s : List Char} (hs : sseStream s) (p c r : List Char)
    (hpre : (p ++ c) ++ r = s) :
    feedChunk (canonFrames p, lastLineOf p) c = (canonFrames (p ++ c), lastLineOf (p ++ c)) := by
  have hmem : lastLineOf p ∈ splitNL p := getLastD_mem (splitNL_ne_nil p) []
  have hnl : '\n' ∉ lastLineOf p := splitNL_mem_no_nl hmem
  have h1 : splitNL (lastLineOf p) = [lastLineOf p] := splitNL_eq_single hnl
  have h2 : splitNL (lastLineOf p ++ c) = glueHead (lastLineOf p) (splitNL c) := by
    rw [splitNL_append, h1]
    rfl
  have h3 : splitNL (p ++ c) = (splitNL p).dropLast ++ glueHead (lastLineOf p) (splitNL c) :=
    splitNL_append p c
  have hgne : glueHead (lastLineOf p) (splitNL c) ≠ [] := glueHead_ne_nil _ _
  have h4 : lastLineOf (p ++ c) = lastLineOf (lastLineOf p ++ c) := by
    rw [lastLineOf, lastLineOf, h3, h2, getLastD_append_ne hgne]
  have h5 : (splitNL (p ++ c)).dropLast =
      (splitNL p).dropLast ++ (splitNL (lastLineOf p ++ c)).dropLast := by
    rw [h3, h2, dropLast_append_ne hgne]
  have h6 : begB ['\x7b'] (trimL (lastLineOf (lastLineOf p ++ c))) = false := by
    rw [← h4]
    obtain ⟨l, t, hlm, heq⟩ := lastLine_line_part hpre
    exact no_brace_of_sse_line heq (hs l hlm)
  show (canonFrames p ++ (extractJsonFromBuffer (lastLineOf p ++ c)).1,
      (extractJsonFromBuffer (lastLineOf p ++ c)).2) = _
  rw [extract_of_no_brace _ h6]
  refine Prod.ext ?_ h4.symm
  show canonFrames p ++ canonFrames (lastLineOf p ++ c) = canonFrames (p ++ c)
  rw [canonFrames, canonFrames, canonFrames, h5, List.map_append, List.flatten_append]

lemma runExtractor_go {s : List Char} (hs : sseStream s) :
    ∀ (cs : List (List Char)) (p r : List Char), (p ++ cs.flatten) ++ r = s →
      cs.foldl feedChunk (canonFrames p, lastLineOf p) =
        (canonFrames (p ++ cs.flatten), lastLineOf (p ++ cs.flatten)) := by
  intro cs
  induction cs with
  | nil =>
    intro p r h
    simp
  | cons c rest ih =>
    intro p r h
    have hflat : (c :: rest).flatten = c ++ rest.flatten := rfl
    have hpre : (p ++ c) ++ (rest.flatten ++ r) = s := by
      rw [hflat] at h
      rw [← h]
      simp [List.append_assoc]
    rw [List.foldl_cons, feedChunk_step hs p c (rest.flatten ++ r) hpre,
      ih (p ++ c) r (by rw [hflat] at h; rw [← h]; simp [List.append_assoc]), hflat,
      List.append_assoc]

/-- C1 (amended): for a stream whose lines are all blank or SSE data
lines, the extractor-plus-decoder pipeline yields the same event sequence
under every partition into chunks. -/
theorem sse_stream_chunk_invariance (s : List Char) (cs cs2 : List (List Char))
    (hs : sseStream s) (h1 : cs.flatten = s) (h2 : cs2.flatten = s) :
    pipelineEvents cs = pipelineEvents cs2 := by
  have key : ∀ ds : List (List Char), ds.flatten = s →
      runExtractor ds = (canonFrames s, lastLineOf s) := by
    intro ds hd
    have h0 : (([] : List (List Char)), ([] : List Char)) = (canonFrames [], lastLineOf []) := rfl
    rw [runExtractor, h0, runExtractor_go hs ds [] [] (by simp [hd]), List.nil_append, hd]
  rw [pipelineEvents, pipelineEvents, key cs h1, key cs2 h2]

instance (l : List Char) : Decidable (sseLine l) := by
  unfold sseLine
  infer_instance

instance (s : List Char) : Decidable (sseStream s) := by
  unfold sseStream
  infer_instance

/-- C1 (counterexample): the same complete byte stream, two raw JSON
objects with no newline between them, yields no events when delivered as
one chunk (neither the concatenation nor its parts survive the extractor)
but two events when the chunk boundary falls between the objects. -/
theorem chunk_boundary_changes_events :
    ("\x7b\"data\":\x7b\"author_type\":\"agent\",\"message\":\"hi\"\x7d\x7d".toList ++
        "\x7b\"done\":true\x7d".toList =
      "\x7b\"data\":\x7b\"author_type\":\"agent\",\"message\":\"hi\"\x7d\x7d\x7b\"done\":true\x7d".toList) ∧
    (pipelineEvents
        ["\x7b\"data\":\x7b\"author_type\":\"agent\",\"message\":\"hi\"\x7d\x7d\x7b\"done\":true\x7d".toList]).length = 0 ∧
    (pipelineEvents
        ["\x7b\"data\":\x7b\"author_type\":\"agent\",\"message\":\"hi\"\x7d\x7d".toList,
         "\x7b\"done\":true\x7d".toList]).length = 2 :=
  ⟨by decide, by decide, by decide⟩

/-- C1 (witness): a concrete SSE stream split in the middle of a data line
produces the same events as the unsplit stream. -/
theorem sse_stream_chunk_invariance_witness :
    sseStream "data: \x7b\"done\":true\x7d\n".toList ∧
    (["data: \x7b\"do".toList, "ne\":true\x7d\n".toList] : List (List Char)).flatten =
      "data: \x7b\"done\":true\x7d\n".toList ∧
    pipelineEvents ["data: \x7b\"do".toList, "ne\":true\x7d\n".toList] =
      pipelineEvents ["data: \x7b\"done\":true\x7d\n".toList] :=
  ⟨by decide, by decide,
    sse_stream_chunk_invariance "data: \x7b\"done\":true\x7d\n".toList
      ["data: \x7b\"do".toList, "ne\":true\x7d\n".toList]
      ["data: \x7b\"done\":true\x7d\n".toList]
      (by decide) (by decide) (by decide)⟩

/-! ## Claims C6, C7, C8, C10 on the decoder and the generator -/

lemma begB_self_append (p r : List Char) : begB p (p ++ r) = true := by
  induction p with
  | nil => rfl
  | cons c ps ih => simp [begB, ih]

lemma isFailureRec_sysRec (m : List Char) : isFailureRec (sysRec m) = true := by
  have h3 := begB_self_append "Failed to process your request: ".toList m
  unfold isFailureRec
  rw [show authorOf (sysRec m) = some "system".toList from rfl,
    show messageOf (sysRec m) =
      some ("Failed to process your request: ".toList ++ m) from rfl]
  simp only [beq_self_eq_true, Bool.true_and]
  exact h3

/-- C6: whenever sendMessage fails before any stream data is available
(chat creation failure, network error, non-2xx status, missing body), the
generator yields exactly one record, authored `system`, whose text carries
the failure description. -/
theorem sendMessage_prefailure_single_system_record
    (chatRes : Except (List Char) (List Char)) (fo : FetchOutcome) (m : List Char)
    (h : failureText chatRes fo = some m) :
    sendMessageRecords chatRes fo = [sysRec m] ∧
    authorOf (sysRec m) = some "system".toList ∧
    messageOf (sysRec m) = "Failed to process your request: ".toList ++ m := by
  cases chatRes with
  | error m2 =>
    simp only [failureText, Option.some.injEq] at h
    subst h
    exact ⟨rfl, rfl, rfl⟩
  | ok cid =>
    cases fo with
    | netErr m2 =>
      simp only [failureText, Option.some.injEq] at h
      subst h
      exact ⟨rfl, rfl, rfl⟩
    | httpFail st stx et =>
      simp only [failureText, Option.some.injEq] at h
      subst h
      exact ⟨rfl, rfl, rfl⟩
    | noBody =>
      simp only [failureText, Option.some.injEq] at h
      subst h
      exact ⟨rfl, rfl, rfl⟩
    | ok chunks tail => simp [failureText] at h

/-- C6 (witness): a response with no body yields exactly the one synthetic
system record. -/
theorem sendMessage_prefailure_single_system_record_witness :
    failureText (Except.ok "chat1".toList) FetchOutcome.noBody =
      some "No response body received".toList ∧
    sendMessageRecords (Except.ok "chat1".toList) FetchOutcome.noBody =
      [sysRec "No response body received".toList] :=
  ⟨rfl,
    (sendMessage_prefailure_single_system_record (Except.ok "chat1".toList)
      FetchOutcome.noBody "No response body received".toList rfl).1⟩

/-- Presence of a top-level key in a frame that parses as a JSON object. -/
def topKeyPresent (js k : List Char) : Bool :=
  match jsonParse js with
  | some (JValue.obj fs) => (getFieldLast fs k).isSome
  | _ => false

/-- C7 (counterexample): the frame `data kind null object` parses as JSON
with a top-level `data` key, yet the decoder returns no event at all: the
rule-(1) test is a truthiness test, so a `null` (or empty-string, or
`false`) value for `data`/`error` falls through to the later rules and is
rejected. -/
theorem decoder_ignores_falsy_data_key :
    topKeyPresent "\x7b\"data\":null\x7d".toList "data".toList = true ∧
    tryParseStreamChunk "\x7b\"data\":null\x7d".toList = none :=
  ⟨rfl, rfl⟩

lemma tryParse_eq_decode {js : List Char} {v : JValue} (hp : jsonParse js = some v)
    (hv : v ≠ JValue.null)
    (hgate : (js.isEmpty || js == "[DONE]".toList || js == "null".toList) = false) :
    tryParseStreamChunk js = decodeParsed v := by
  unfold tryParseStreamChunk
  rw [hgate]
  simp only [Bool.false_eq_true, if_false]
  rw [hp]
  cases v with
  | null => exact absurd rfl hv
  | bool b => rfl
  | num m e => rfl
  | str s => rfl
  | arr l => rfl
  | obj fs => rfl

/-- C7 (amended): rule (1) of the decoder fires, before any later rule is
tried, exactly when the parsed frame's `data` field is truthy, or its
`error` field is truthy, or its `done` field is present with any value
(including `false` or `null`); the event is then the parsed value itself. -/
theorem rule1_fires_on_truthy_data_error_or_done_present (js : List Char) (v : JValue)
    (hp : jsonParse js = some v) (hv : v ≠ JValue.null)
    (hcond : (truthyOpt (jsGet v "data".toList) || truthyOpt (jsGet v "error".toList) ||
      (jsGet v "done".toList).isSome) = true) :
    tryParseStreamChunk js =
      some ⟨jsGet v "data".toList, jsGet v "error".toList, jsGet v "done".toList⟩ := by
  have hgate : (js.isEmpty || js == "[DONE]".toList || js == "null".toList) = false := by
    have e1 : js.isEmpty = false := by
      cases js with
      | nil => rw [show jsonParse [] = none from rfl] at hp; cases hp
      | cons a b => rfl
    have e2 : (js == "[DONE]".toList) = false := by
      by_cases h2 : js = "[DONE]".toList
      · rw [h2, show jsonParse "[DONE]".toList = none from rfl] at hp
        cases hp
      · exact beq_eq_false_iff_ne.mpr h2
    have e3 : (js == "null".toList) = false := by
      by_cases h3 : js = "null".toList
      · rw [h3, show jsonParse "null".toList = some JValue.null from rfl] at hp
        exact absurd (Option.some.inj hp).symm hv
      · exact beq_eq_false_iff_ne.mpr h3
    rw [e1, e2, e3]
    rfl
  rw [tryParse_eq_decode hp hv hgate]
  unfold decodeParsed
  rw [if_pos hcond]

/-- C7 (witness): a frame with `done kind false` is decoded directly as a
stream event by rule (1). -/
theorem rule1_fires_witness :
    tryParseStreamChunk "\x7b\"done\":false\x7d".toList =
      some ⟨none, none, some (JValue.bool false)⟩ :=
  rule1_fires_on_truthy_data_error_or_done_present "\x7b\"done\":false\x7d".toList
    (JValue.obj [("done".toList, JValue.bool false)]) rfl
    (by intro h; cases h) rfl

/-- C8 (counterexample): a frame carrying both a truthy `error` and
`done kind true` decodes to an event whose `done` is truthy, yet the
`continue` on the error branch skips the done check, so the stream is not
terminated and a later data record is still yielded. -/
theorem error_done_frame_not_terminal :
    (∃ e, tryParseStreamChunk "\x7b\"error\":\"boom\",\"done\":true\x7d".toList = some e ∧
      truthyOpt e.done = true ∧ truthyOpt e.error = true) ∧
    (sendStreamRecords
        ["\x7b\"error\":\"boom\",\"done\":true\x7d\n".toList,
         "\x7b\"data\":\x7b\"author_type\":\"agent\",\"message\":\"hi\"\x7d\x7d\n".toList]
        StreamTail.eof).length = 1 ∧
    authorOf ((sendStreamRecords
        ["\x7b\"error\":\"boom\",\"done\":true\x7d\n".toList,
         "\x7b\"data\":\x7b\"author_type\":\"agent\",\"message\":\"hi\"\x7d\x7d\n".toList]
        StreamTail.eof).headD JValue.null) = some "agent".toList :=
  ⟨⟨⟨none, some (JValue.str "boom".toList), some (JValue.bool true)⟩, rfl, rfl, rfl⟩,
    rfl, rfl⟩

/-- C8 (amended): any run of frames decoding to truthy-`error` events is
skipped without ending the sequence; the first frame decoding to an event
with falsy `error` and truthy `done` yields that event's truthy data (if
any) and terminates the sequence, with all later frames unread. -/
theorem error_skip_done_terminate (efs : List (List Char)) (f : List Char)
    (e : StreamResp) (rest : List (List Char))
    (herr : ∀ g ∈ efs, ∃ e2, tryParseStreamChunk g = some e2 ∧ truthyOpt e2.error = true)
    (hf : tryParseStreamChunk f = some e) (hfe : truthyOpt e.error = false)
    (hfd : truthyOpt e.done = true) :
    consumeFrames (efs ++ f :: rest) = (dataRecs e, true) := by
  induction efs with
  | nil =>
    simp only [List.nil_append, consumeFrames, hf, hfe, hfd]
    rfl
  | cons g gs ih =>
    obtain ⟨e2, hg, hge⟩ := herr g (List.mem_cons_self g gs)
    have ih2 := ih (fun g2 hg2 => herr g2 (List.mem_cons_of_mem g hg2))
    simp only [List.cons_append, consumeFrames, hg, hge]
    exact ih2

/-- C8 (witness): an error frame before a done frame is skipped, the done
frame ends the sequence, and the trailing data frame is never consumed. -/
theorem error_skip_done_terminate_witness :
    consumeFrames
      ["\x7b\"error\":\"x\"\x7d".toList, "\x7b\"done\":true\x7d".toList,
       "\x7b\"data\":1\x7d".toList] = ([], true) :=
  error_skip_done_terminate ["\x7b\"error\":\"x\"\x7d".toList]
    "\x7b\"done\":true\x7d".toList ⟨none, none, some (JValue.bool true)⟩
    ["\x7b\"data\":1\x7d".toList]
    (by
      intro g hg
      rw [List.mem_singleton.mp hg]
      exact ⟨⟨none, some (JValue.str "x".toList), none⟩, rfl, rfl⟩)
    rfl rfl rfl

/-- C10: for every chat-resolution outcome and every behaviour of the
HTTP response and its byte stream, the sendMessage generator returns the
records of the pure stream pipeline followed by at most one synthetic
record, and any such extra record is a system-authored failure record:
every internal failure is caught and the generator terminates normally. -/
theorem sendMessage_bounded_failure_suffix (chatRes : Except (List Char) (List Char))
    (fo : FetchOutcome) :
    ∃ tailRecs, sendMessageRecords chatRes fo = cleanRecords chatRes fo ++ tailRecs ∧
      tailRecs.length ≤ 1 ∧ ∀ rec ∈ tailRecs, isFailureRec rec = true := by
  cases chatRes with
  | error m =>
    refine ⟨[sysRec m], rfl, by simp, ?_⟩
    intro rec hr
    rw [List.mem_singleton.mp hr]
    exact isFailureRec_sysRec m
  | ok cid =>
    cases fo with
    | netErr m =>
      refine ⟨[sysRec m], rfl, by simp, ?_⟩
      intro rec hr
      rw [List.mem_singleton.mp hr]
      exact isFailureRec_sysRec m
    | httpFail st stx et =>
      refine ⟨[sysRec (apiFailMsg st stx et)], rfl, by simp, ?_⟩
      intro rec hr
      rw [List.mem_singleton.mp hr]
      exact isFailureRec_sysRec _
    | noBody =>
      refine ⟨[sysRec "No response body received".toList], rfl, by simp, ?_⟩
      intro rec hr
      rw [List.mem_singleton.mp hr]
      exact isFailureRec_sysRec _
    | ok chunks tail =>
      simp only [sendMessageRecords, cleanRecords, sendStreamRecords]
      by_cases hst : (chunkRecords [] chunks).2.1 = true
      · refine ⟨[], ?_, by simp, by simp⟩
        rw [if_pos hst, if_pos hst, List.append_nil]
      · rw [if_neg hst, if_neg hst]
        cases tail with
        | eof => exact ⟨[], by rw [List.append_nil], by simp, by simp⟩
        | throwAfter m =>
          refine ⟨[sysRec m], rfl, by simp, ?_⟩
          intro rec hr
          rw [List.mem_singleton.mp hr]
          exact isFailureRec_sysRec m
        | timeout => exact ⟨[], by rw [List.append_nil], by simp, by simp⟩

/-! ## SessionCache: IntentKitClient.getChatId under concurrency (claim C2)

getChatId (part_005 lines 91-138) runs in two atomic segments separated by
the `await fetch`: (a) check the cache and, on a miss, issue the creation
POST; (b) receive the chat id, write it to the cache, return it.  The
backend is a function from the creation-call index to the returned id. -/

/-- Program counter of one getChatId invocation. -/
inductive CPc where
  | start : CPc
  | fetched (h : Nat) : CPc
  | done (h : Nat) : CPc
deriving DecidableEq

/-- Shared state: the chatCache entry for the one userKey under test, the
number of creation calls issued, and the per-invocation counters. -/
structure CState where
  cache : Option Nat
  calls : Nat
  tasks : List CPc
deriving DecidableEq

/-- One scheduler step: run the next atomic segment of invocation `i`
(part_005: lines 93-95 and the fetch issue at 105, then lines 122-131). -/
def cstep (backend : Nat → Nat) (s : CState) (i : Nat) : CState :=
  match s.tasks[i]? with
  | some CPc.start =>
    (match s.cache with
     | some h => { s with tasks := s.tasks.set i (CPc.done h) }
     | none =>
       { s with tasks := s.tasks.set i (CPc.fetched (backend s.calls)), calls := s.calls + 1 })
  | some (CPc.fetched h) => { s with cache := some h, tasks := s.tasks.set i (CPc.done h) }
  | _ => s

/-- Run `n` concurrent getChatId invocations for the same userKey under an
explicit interleaving. -/
def crun (backend : Nat → Nat) (n : Nat) (sched : List Nat) : CState :=
  sched.foldl (cstep backend) ⟨none, 0, List.replicate n CPc.start⟩

/-- Serialized schedule: each listed invocation runs both of its atomic
segments before the next one starts. -/
def pairSched (ks : List Nat) : List Nat :=
  (ks.map (fun k => [k, k])).flatten

/-- C2 (counterexample): two concurrent getChatId calls for the same
userKey, both passing the cache check before either creation call
completes, issue two backend creation calls and return two different
session handles (backend call k returns handle k): there is no per-key
mutex, so the claim fails. -/
theorem getChatId_concurrent_double_create :
    (crun (fun k => k) 2 [0, 1, 0, 1]).calls = 2 ∧
    (crun (fun k => k) 2 [0, 1, 0, 1]).tasks = [CPc.done 0, CPc.done 1] :=
  ⟨by decide, by decide⟩

/-- Invariant once the cache holds `h`: every invocation is untouched or
finished with `h`. -/
abbrev taskInv (h : Nat) (s : CState) : Prop :=
  ∀ (j : Nat) (pc : CPc), s.tasks[j]? = some pc → pc = CPc.start ∨ pc = CPc.done h

lemma getq_set_self {α : Type} (l : List α) (i : Nat) (a : α) (h : i < l.length) :
    (l.set i a)[i]? = some a := by
  simp [List.getElem?_set, h]

lemma getq_set_ne {α : Type} (l : List α) {i j : Nat} (a : α) (h : i ≠ j) :
    (l.set i a)[j]? = l[j]? := by
  simp [List.getElem?_set, h]

lemma cstep_pair_cached (b : Nat → Nat) (s : CState) (k : Nat) (h : Nat)
    (hc : s.cache = some h) (hinv : taskInv h s) :
    (cstep b (cstep b s k) k).cache = some h ∧
    (cstep b (cstep b s k) k).calls = s.calls ∧
    (cstep b (cstep b s k) k).tasks.length = s.tasks.length ∧
    taskInv h (cstep b (cstep b s k) k) ∧
    (k < s.tasks.length → (cstep b (cstep b s k) k).tasks[k]? = some (CPc.done h)) ∧
    (∀ (j : Nat), s.tasks[j]? = some (CPc.done h) →
      (cstep b (cstep b s k) k).tasks[j]? = some (CPc.done h)) := by
  cases hk : s.tasks[k]? with
  | none =>
    have hs : cstep b s k = s := by
      unfold cstep
      rw [hk]
    rw [hs, hs]
    have hklen : ¬ k < s.tasks.length := by
      intro hlt
      rw [List.getElem?_eq_getElem hlt] at hk
      cases hk
    exact ⟨hc, rfl, rfl, hinv, fun hlt => absurd hlt hklen, fun j hj => hj⟩
  | some pc =>
    have hklt : k < s.tasks.length := by
      by_contra hnk
      rw [List.getElem?_eq_none (by omega)] at hk
      cases hk
    rcases hinv k pc hk with hpc | hpc
    · subst hpc
      have hs1 : cstep b s k = { s with tasks := s.tasks.set k (CPc.done h) } := by
        unfold cstep
        rw [hk, hc]
      have hk1 : (s.tasks.set k (CPc.done h))[k]? = some (CPc.done h) :=
        getq_set_self _ _ _ hklt
      have hs2 : cstep b (cstep b s k) k = { s with tasks := s.tasks.set k (CPc.done h) } := by
        rw [hs1]
        unfold cstep
        simp only [hk1]
      rw [hs2]
      refine ⟨hc, rfl, by simp, ?_, fun _ => hk1, ?_⟩
      · intro j pc2 hj
        have hj2 : (s.tasks.set k (CPc.done h))[j]? = some pc2 := hj
        by_cases hjk : k = j
        · subst hjk
          rw [hk1] at hj2
          exact Or.inr (Option.some.inj hj2).symm
        · rw [getq_set_ne _ _ hjk] at hj2
          exact hinv j pc2 hj2
      · intro j hj
        show (s.tasks.set k (CPc.done h))[j]? = some (CPc.done h)
        by_cases hjk : k = j
        · subst hjk
          exact hk1
        · rw [getq_set_ne _ _ hjk]
          exact hj
    · subst hpc
      have hs : cstep b s k = s := by
        unfold cstep
        rw [hk]
      rw [hs, hs]
      exact ⟨hc, rfl, rfl, hinv, fun _ => hk, fun j hj => hj⟩

lemma crun_cached (b : Nat → Nat) (h : Nat) :
    ∀ (ks : List Nat) (s : CState), s.cache = some h → taskInv h s →
      ((pairSched ks).foldl (cstep b) s).cache = some h ∧
      ((pairSched ks).foldl (cstep b) s).calls = s.calls ∧
      ((pairSched ks).foldl (cstep b) s).tasks.length = s.tasks.length ∧
      taskInv h ((pairSched ks).foldl (cstep b) s) ∧
      (∀ j ∈ ks, j < s.tasks.length →
        ((pairSched ks).foldl (cstep b) s).tasks[j]? = some (CPc.done h)) ∧
      (∀ (j : Nat), s.tasks[j]? = some (CPc.done h) →
        ((pairSched ks).foldl (cstep b) s).tasks[j]? = some (CPc.done h)) := by
  intro ks
  induction ks with
  | nil =>
    intro s hc hinv
    exact ⟨hc, rfl, rfl, hinv, by simp, fun j hj => hj⟩
  | cons k ks2 ih =>
    intro s hc hinv
    have hps : pairSched (k :: ks2) = k :: k :: pairSched ks2 := rfl
    rw [hps]
    simp only [List.foldl_cons]
    obtain ⟨pc1, pc2, pc3, pc4, pc5, pc6⟩ := cstep_pair_cached b s k h hc hinv
    obtain ⟨ic1, ic2, ic3, ic4, ic5, ic6⟩ := ih (cstep b (cstep b s k) k) pc1 pc4
    refine ⟨ic1, by rw [ic2, pc2], by rw [ic3, pc3], ic4, ?_, ?_⟩
    · intro j hj hjlt
      rcases List.mem_cons.mp hj with hjk | hjk
      · subst hjk
        exact ic6 j (pc5 hjlt)
      · exact ic5 j hjk (by rw [pc3]; exact hjlt)
    · intro j hj
      exact ic6 j (pc6 j hj)

lemma replicate_getq {α : Type} (n k : Nat) (x : α) (h : k < n) :
    (List.replicate n x)[k]? = some x := by
  rw [List.getElem?_eq_getElem (by simpa using h), List.getElem_replicate]

/-- C2 (amended): when the invocations do not overlap (each getChatId call
for the userKey runs to completion before the next begins, in any order,
with every invocation scheduled at least once), exactly one backend
creation call is issued and every invocation returns the same handle,
namely the one produced by the single creation call. -/
theorem getChatId_sequential_single_create (b : Nat → Nat) (n : Nat) (ks : List Nat)
    (hne : ks ≠ []) (hlt : ∀ k ∈ ks, k < n) (hcov : ∀ j, j < n → j ∈ ks) :
    (crun b n (pairSched ks)).calls = 1 ∧
    ∀ pc ∈ (crun b n (pairSched ks)).tasks, pc = CPc.done (b 0) := by
  cases ks with
  | nil => exact absurd rfl hne
  | cons k0 ks2 =>
    have hk0 : k0 < n := hlt k0 (List.mem_cons_self k0 ks2)
    have hps : pairSched (k0 :: ks2) = k0 :: k0 :: pairSched ks2 := rfl
    rw [crun, hps]
    simp only [List.foldl_cons]
    set init : CState := ⟨none, 0, List.replicate n CPc.start⟩ with hinit
    have hg0 : init.tasks[k0]? = some CPc.start := by
      rw [hinit]
      exact replicate_getq n k0 CPc.start hk0
    have hs1 : cstep b init k0 =
        ⟨none, 1, (List.replicate n CPc.start).set k0 (CPc.fetched (b 0))⟩ := by
      unfold cstep
      rw [hg0]
    have hg1 : ((List.replicate n CPc.start).set k0 (CPc.fetched (b 0)))[k0]? =
        some (CPc.fetched (b 0)) :=
      getq_set_self _ _ _ (by simpa using hk0)
    have hs2 : cstep b (cstep b init k0) k0 =
        ⟨some (b 0), 1, (List.replicate n CPc.start).set k0 (CPc.done (b 0))⟩ := by
      rw [hs1]
      unfold cstep
      simp only [hg1, List.set_set]
    rw [hs2]
    set s2 : CState := ⟨some (b 0), 1, (List.replicate n CPc.start).set k0 (CPc.done (b 0))⟩
      with hs2d
    have hinv2 : taskInv (b 0) s2 := by
      intro j pc hj
      have hj2 : ((List.replicate n CPc.start).set k0 (CPc.done (b 0)))[j]? = some pc := hj
      by_cases hjk : k0 = j
      · subst hjk
        rw [getq_set_self _ _ _ (by simpa using hk0)] at hj2
        exact Or.inr (Option.some.inj hj2).symm
      · rw [getq_set_ne _ _ hjk] at hj2
        by_cases hjn : j < n
        · rw [replicate_getq n j CPc.start hjn] at hj2
          exact Or.inl (Option.some.inj hj2).symm
        · rw [List.getElem?_eq_none (by simpa using Nat.le_of_not_lt hjn)] at hj2
          cases hj2
    obtain ⟨fc1, fc2, fc3, fc4, fc5, fc6⟩ := crun_cached b (b 0) ks2 s2 rfl hinv2
    have hlen2 : s2.tasks.length = n := by
      rw [hs2d]
      simp
    refine ⟨fc2, ?_⟩
    intro pc hpc
    obtain ⟨j, hj⟩ := List.mem_iff_getElem?.mp hpc
    have hjn : j < n := by
      have := List.getElem?_eq_some.mp hj
      obtain ⟨hlt2, _⟩ := this
      rw [fc3, hlen2] at hlt2
      exact hlt2
    have hdone : ((pairSched ks2).foldl (cstep b) s2).tasks[j]? = some (CPc.done (b 0)) := by
      rcases List.mem_cons.mp (hcov j hjn) with hjk | hjk
      · subst hjk
        refine fc6 j ?_
        show ((List.replicate n CPc.start).set j (CPc.done (b 0)))[j]? = some (CPc.done (b 0))
        exact getq_set_self _ _ _ (by simpa using hjn)
      · exact fc5 j hjk (by rw [hlen2]; exact hjn)
    rw [hdone] at hj
    exact (Option.some.inj hj).symm

/-- C2 (witness): three non-overlapping calls issue one creation call and
all finish with the same handle. -/
theorem getChatId_sequential_single_create_witness :
    (crun (fun k => k + 7) 3 (pairSched [0, 1, 2])).calls = 1 ∧
    ∀ pc ∈ (crun (fun k => k + 7) 3 (pairSched [0, 1, 2])).tasks, pc = CPc.done 7 :=
  getChatId_sequential_single_create (fun k => k + 7) 3 [0, 1, 2]
    (by decide) (by decide) (by decide)

/-! ## IngestionEngine retry loop (index.ts lines 304-346, claim C3) -/

/-- Outcome of one attempt of the message-stream loop: the stream iterates
`units` successfully processed messages and then either ends normally or
raises. -/
inductive StreamAttempt where
  | endsNormally (units : Nat) : StreamAttempt
  | throwsAfter (units : Nat) : StreamAttempt

/-- Whether the attempt raised. -/
def StreamAttempt.isThrow : StreamAttempt → Bool
  | StreamAttempt.endsNormally _ => false
  | StreamAttempt.throwsAfter _ => true

/-- The supervision loop of main (index.ts lines 308-346): while the retry
count is below MAX_RETRIES kind 6, run one attempt; normal stream end
resets the count to zero, a raise increments it.  The trace records, for
each attempt started, the units processed and the retry count after the
attempt is handled. -/
def runLoop : Nat → List StreamAttempt → List (Nat × Nat)
  | _, [] => []
  | rc, a :: rest =>
    if rc < 6 then
      match a with
      | StreamAttempt.endsNormally u => (u, 0) :: runLoop 0 rest
      | StreamAttempt.throwsAfter u => (u, rc + 1) :: runLoop (rc + 1) rest
    else []

/-- C3 (counterexample): after one failed attempt, a second attempt
processes five messages successfully and then the stream raises; the retry
count after that failure is 2, not 1: nothing in the loop body resets the
count when a message is processed, only normal stream termination does. -/
theorem retry_count_not_reset_by_processed_units :
    runLoop 0 [StreamAttempt.throwsAfter 0, StreamAttempt.throwsAfter 5] =
      [(0, 1), (5, 2)] := by
  decide

/-- C3 (amended): the retry count after each attempt depends only on the
pattern of failures across attempts, never on how many units were
processed; and the count is reset to zero exactly when the stream
iteration ends without raising. -/
theorem retry_count_depends_only_on_failures :
    (∀ (rc : Nat) (as2 bs : List StreamAttempt),
      List.Forall₂ (fun a b => StreamAttempt.isThrow a = StreamAttempt.isThrow b) as2 bs →
      (runLoop rc as2).map Prod.snd = (runLoop rc bs).map Prod.snd) ∧
    (∀ (rc u : Nat) (rest : List StreamAttempt), rc < 6 →
      runLoop rc (StreamAttempt.endsNormally u :: rest) = (u, 0) :: runLoop 0 rest) := by
  constructor
  · intro rc as2 bs hab
    induction hab generalizing rc with
    | nil => rfl
    | @cons a b as3 bs3 hab2 htail ih =>
      by_cases hrc : rc < 6
      · cases a with
        | endsNormally u =>
          cases b with
          | endsNormally u2 => simp [runLoop, if_pos hrc, ih]
          | throwsAfter u2 => simp [StreamAttempt.isThrow] at hab2
        | throwsAfter u =>
          cases b with
          | endsNormally u2 => simp [StreamAttempt.isThrow] at hab2
          | throwsAfter u2 => simp [runLoop, if_pos hrc, ih]
      · cases a <;> cases b <;> simp [runLoop, if_neg hrc]
  · intro rc u rest hrc
    simp [runLoop, if_pos hrc]

/-- C3 (witness): the retry trace of an attempt with 3 processed units
matches that of an attempt with 99, and a normal stream end resets the
count. -/
theorem retry_count_depends_only_on_failures_witness :
    (runLoop 0 [StreamAttempt.throwsAfter 3]).map Prod.snd =
      (runLoop 0 [StreamAttempt.throwsAfter 99]).map Prod.snd ∧
    runLoop 5 [StreamAttempt.endsNormally 4] = (4, 0) :: runLoop 0 [] :=
  ⟨retry_count_depends_only_on_failures.1 0 [StreamAttempt.throwsAfter 3]
      [StreamAttempt.throwsAfter 99] (by constructor <;> first | rfl | constructor),
    retry_count_depends_only_on_failures.2 5 4 [] (by decide)⟩

/-! ## Discovery loop and greeting (index.ts lines 47-153, claim C5)

One poll iteration of monitorNewConversations lists the conversations,
filters out the already-known ids (the snapshot), and then for each
remaining conversation awaits handleNewConversation, which first adds the
id to the shared set and then greets.  `main` spawns a fresh
monitorNewConversations on every stream retry without cancelling the old
one, so iterations of distinct loop instances can overlap.

Atomic segments, as delimited by the awaits of the source: the filter
(index.ts 67-69) and the first handleNewConversation's insertion
(index.ts 97) run in one synchronous segment, with no await between the
filter and the add; likewise, after one greeting's awaits complete, the
loop enters the next handleNewConversation and performs its insertion in
the same continuation.  Each greeting itself spans awaits (members,
sendMessage, sends), so other tasks run between the insertion of an id
and the completion of its greeting.  A scheduler step below is one such
segment; the in-flight greeting is recorded when its segment completes.
The model merges each greeting's awaits into one step, a strict
under-approximation of the interleavings the program exhibits. -/

/-- Program counter of one poll iteration: awaiting the listing, or
greeting `current` with the rest of the filtered snapshot pending, or
done. -/
inductive GPc where
  | scan (convs : List Nat) : GPc
  | greeting (current : Nat) (pending : List Nat) : GPc
  | finished : GPc
deriving DecidableEq

/-- Shared state: known-conversation ids, greetings sent so far (with
multiplicity, in completion order), and the iteration tasks. -/
structure GState where
  known : List Nat
  greeted : List Nat
  tasks : List GPc
deriving DecidableEq

/-- One synchronous segment of iteration `i`: the filter against the
shared set together with the first insertion (index.ts 67-97), or the
completion of the in-flight greeting together with the next
handleNewConversation's insertion (index.ts 71-73, 97).  The pending
snapshot is never re-checked against the known set. -/
def gstep (s : GState) (i : Nat) : GState :=
  match s.tasks[i]? with
  | some (GPc.scan convs) =>
    (match convs.filter (fun c => !s.known.contains c) with
     | [] => { s with tasks := s.tasks.set i GPc.finished }
     | c :: rest =>
       { s with
         known := if s.known.contains c then s.known else c :: s.known,
         tasks := s.tasks.set i (GPc.greeting c rest) })
  | some (GPc.greeting c pending) =>
    (match pending with
     | [] =>
       { s with greeted := s.greeted ++ [c], tasks := s.tasks.set i GPc.finished }
     | c2 :: rest =>
       { s with
         greeted := s.greeted ++ [c],
         known := if s.known.contains c2 then s.known else c2 :: s.known,
         tasks := s.tasks.set i (GPc.greeting c2 rest) })
  | _ => s

/-- Run overlapping poll iterations under an explicit interleaving. -/
def grun (tasks : List GPc) (sched : List Nat) : GState :=
  sched.foldl gstep ⟨[], [], tasks⟩

/-- C5 (counterexample): instance A lists conversations 6 and 7, marks 6
and begins greeting it; during that greeting's awaits, instance B lists,
sees 7 not yet known, marks and greets it; A then reaches 7 from its
already-filtered snapshot — which is never re-checked — and greets it
again.  Both instances observed 7 before either had completed a greeting,
yet 7 is greeted twice. -/
theorem overlapping_discovery_double_greeting :
    (grun [GPc.scan [6, 7], GPc.scan [7]] [0, 1, 0, 0, 1]).greeted = [6, 7, 7] := by
  decide

/-- One sequential poll iteration (a single monitorNewConversations
instance): filter the observed ids against the known set, then mark and
greet each survivor in order. -/
def greetIter (st : List Nat × List Nat) (convs : List Nat) : List Nat × List Nat :=
  let pending := convs.filter (fun c => !st.1.contains c)
  pending.foldl
    (fun st2 c => (if st2.1.contains c then st2.1 else c :: st2.1, st2.2 ++ [c])) st

/-- Sequential discovery: poll iterations one after another, starting with
no known conversations and no greetings. -/
def runDiscovery (iters : List (List Nat)) : List Nat × List Nat :=
  iters.foldl greetIter ([], [])

lemma contains_eq_mem (l : List Nat) (a : Nat) : l.contains a = true ↔ a ∈ l := by
  simp

lemma greet_fold_snd (pending : List Nat) :
    ∀ (k g : List Nat),
      ((pending.foldl
        (fun st2 c => (if st2.1.contains c then st2.1 else c :: st2.1, st2.2 ++ [c]))
        (k, g)).2 : List Nat) = g ++ pending := by
  induction pending with
  | nil => intro k g; simp
  | cons c rest ih =>
    intro k g
    rw [List.foldl_cons, ih]
    simp

lemma greet_fold_known_mono (pending : List Nat) :
    ∀ (k g : List Nat) (x : Nat), x ∈ k →
      x ∈ (pending.foldl
        (fun st2 c => (if st2.1.contains c then st2.1 else c :: st2.1, st2.2 ++ [c]))
        (k, g)).1 := by
  induction pending with
  | nil => intro k g x hx; simpa using hx
  | cons c rest ih =>
    intro k g x hx
    rw [List.foldl_cons]
    by_cases hc : k.contains c = true
    · rw [if_pos hc]
      exact ih k (g ++ [c]) x hx
    · rw [if_neg hc]
      exact ih (c :: k) (g ++ [c]) x (List.mem_cons_of_mem c hx)

lemma greet_fold_known_adds (pending : List Nat) :
    ∀ (k g : List Nat) (x : Nat), x ∈ pending →
      x ∈ (pending.foldl
        (fun st2 c => (if st2.1.contains c then st2.1 else c :: st2.1, st2.2 ++ [c]))
        (k, g)).1 := by
  induction pending with
  | nil => intro k g x hx; cases hx
  | cons c rest ih =>
    intro k g x hx
    rw [List.foldl_cons]
    rcases List.mem_cons.mp hx with hx | hx
    · subst hx
      by_cases hc : k.contains x = true
      · rw [if_pos hc]
        exact greet_fold_known_mono rest k (g ++ [x]) x ((contains_eq_mem k x).mp hc)
      · rw [if_neg hc]
        exact greet_fold_known_mono rest (x :: k) (g ++ [x]) x (List.mem_cons_self x k)
    · by_cases hc : k.contains c = true
      · rw [if_pos hc]
        exact ih k (g ++ [c]) x hx
      · rw [if_neg hc]
        exact ih (c :: k) (g ++ [c]) x hx

lemma greetIter_snd (st : List Nat × List Nat) (convs : List Nat) :
    (greetIter st convs).2 = st.2 ++ convs.filter (fun c => !st.1.contains c) := by
  unfold greetIter
  exact greet_fold_snd _ st.1 st.2

lemma greetIter_inv (c : Nat) (st : List Nat × List Nat) (convs : List Nat)
    (hnd : convs.Nodup) (h1 : List.count c st.2 ≤ 1) (h2 : c ∈ st.2 → c ∈ st.1) :
    List.count c (greetIter st convs).2 ≤ 1 ∧
    (c ∈ (greetIter st convs).2 → c ∈ (greetIter st convs).1) := by
  have hsnd := greetIter_snd st convs
  have hpnd : (convs.filter (fun c => !st.1.contains c)).Nodup := hnd.filter _
  by_cases hc : c ∈ st.1
  · have hnp : c ∉ convs.filter (fun x => !st.1.contains x) := by
      intro hm
      have hkeep := (List.mem_filter.mp hm).2
      have h3 := (contains_eq_mem st.1 c).mpr hc
      rw [h3] at hkeep
      simp at hkeep
    constructor
    · rw [hsnd, List.count_append, List.count_eq_zero.mpr hnp]
      omega
    · intro _
      unfold greetIter
      exact greet_fold_known_mono _ st.1 st.2 c hc
  · have hns : c ∉ st.2 := fun hm => hc (h2 hm)
    constructor
    · rw [hsnd, List.count_append, List.count_eq_zero.mpr hns]
      have := List.nodup_iff_count_le_one.mp hpnd c
      omega
    · intro hm
      rw [hsnd] at hm
      rcases List.mem_append.mp hm with hm2 | hm2
      · exact absurd hm2 hns
      · unfold greetIter
        exact greet_fold_known_adds _ st.1 st.2 c hm2

lemma runDiscovery_go (iters : List (List Nat)) :
    ∀ (st : List Nat × List Nat),
      (∀ x : Nat, List.count x st.2 ≤ 1 ∧ (x ∈ st.2 → x ∈ st.1)) →
      (∀ l ∈ iters, l.Nodup) →
      ∀ x : Nat, List.count x (iters.foldl greetIter st).2 ≤ 1 ∧
        (x ∈ (iters.foldl greetIter st).2 → x ∈ (iters.foldl greetIter st).1) := by
  induction iters with
  | nil => intro st hst _ x; exact hst x
  | cons l rest ih =>
    intro st hst hnd x
    rw [List.foldl_cons]
    refine ih (greetIter st l) ?_ (fun l2 hl2 => hnd l2 (List.mem_cons_of_mem l hl2)) x
    intro y
    exact greetIter_inv y st l (hnd l (List.mem_cons_self l rest)) (hst y).1 (hst y).2

/-- C5 (amended): the conversation id is inserted into the known set
before it is greeted, so within a single sequential discovery loop every
conversation id is greeted at most once (whatever the successive,
duplicate-free conversation listings are) and every greeted id ends up
known.  Across two overlapping loop iterations the invariant fails: both
can pass the shared filter before either inserts, and each then greets. -/
theorem sequential_discovery_greets_once (iters : List (List Nat)) (c : Nat)
    (hnd : ∀ l ∈ iters, l.Nodup) :
    List.count c (runDiscovery iters).2 ≤ 1 ∧
    (c ∈ (runDiscovery iters).2 → c ∈ (runDiscovery iters).1) := by
  have := runDiscovery_go iters ([], []) (fun x => ⟨by simp, by simp⟩) hnd c
  exact this

/-- C5 (witness): two sequential polls both listing conversation 7 greet
it exactly once, and it is known afterwards. -/
theorem sequential_discovery_greets_once_witness :
    List.count 7 (runDiscovery [[7, 8], [7, 9]]).2 ≤ 1 ∧
    (7 ∈ (runDiscovery [[7, 8], [7, 9]]).2 → 7 ∈ (runDiscovery [[7, 8], [7, 9]]).1) :=
  sequential_discovery_greets_once [[7, 8], [7, 9]] 7 (by decide)

/-! ## ReplyDispatcher: formatSkillCalls, processIntentKitMessageForXmtp
(part_005 lines 483-660) and handleIntentKitResponse (index.ts 438-463) -/

/-- Hexadecimal digit character. -/
def hexDigit (n : Nat) : Char :=
  if n < 10 then Char.ofNat ('0'.toNat + n) else Char.ofNat ('a'.toNat + n - 10)

/-- JSON string escaping as in `JSON.stringify`. -/
def escapeJson : List Char → List Char
  | [] => []
  | c :: t =>
    (if c = '"' then ['\\', '"']
     else if c = '\\' then ['\\', '\\']
     else if c = '\n' then ['\\', 'n']
     else if c = '\r' then ['\\', 'r']
     else if c = '\t' then ['\\', 't']
     else if c.toNat < 32 then
       ['\\', 'u', '0', '0', hexDigit (c.toNat / 16), hexDigit (c.toNat % 16)]
     else [c]) ++ escapeJson t

/-- Decimal rendering of `m * 10 ^ e` as JavaScript prints ordinary
numbers (exponent notation for extreme magnitudes is not modelled; the
payloads rendered here are ordinary). -/
def renderNum (m e : Int) : List Char :=
  if 0 ≤ e then (toString (m * 10 ^ e.toNat)).toList
  else
    let k := (-e).toNat
    let ds := (toString m.natAbs).toList
    let ds2 := List.replicate (k + 1 - ds.length) '0' ++ ds
    let ip := ds2.take (ds2.length - k)
    let fp := ((ds2.drop (ds2.length - k)).reverse.dropWhile (fun c => c == '0')).reverse
    (if m < 0 then ['-'] else []) ++ ip ++ (if fp.isEmpty then [] else '.' :: fp)

mutual

/-- JavaScript `JSON.stringify` on a JSON value. -/
def jsStringifyVal : JValue → List Char
  | JValue.null => "null".toList
  | JValue.bool true => "true".toList
  | JValue.bool false => "false".toList
  | JValue.num m e => renderNum m e
  | JValue.str s => '"' :: (escapeJson s ++ ['"'])
  | JValue.arr l => '[' :: (joinSep [','] (jsStringifyList l) ++ [']'])
  | JValue.obj fs => '\x7b' :: (joinSep [','] (jsStringifyFields fs) ++ ['\x7d'])

/-- Stringified array elements. -/
def jsStringifyList : List JValue → List (List Char)
  | [] => []
  | v :: t => jsStringifyVal v :: jsStringifyList t

/-- Stringified object members. -/
def jsStringifyFields : List (List Char × JValue) → List (List Char)
  | [] => []
  | (k, v) :: t =>
    ('"' :: (escapeJson k ++ ('"' :: (':' :: jsStringifyVal v)))) :: jsStringifyFields t

end

mutual

/-- JavaScript string coercion of a value as in a template literal. -/
def jsToString : JValue → List Char
  | JValue.null => "null".toList
  | JValue.bool true => "true".toList
  | JValue.bool false => "false".toList
  | JValue.num m e => renderNum m e
  | JValue.str s => s
  | JValue.arr l => joinSep [','] (jsToStringArr l)
  | JValue.obj _ => "[object Object]".toList

/-- Array elements under string coercion (`null` renders empty). -/
def jsToStringArr : List JValue → List (List Char)
  | [] => []
  | JValue.null :: t => [] :: jsToStringArr t
  | v :: t => jsToString v :: jsToStringArr t

end

/-- A skill call of an IntentKitMessage (part_005 lines 18-27). -/
structure SkillCall where
  name : List Char
  parameters : Option (List (List Char × JValue))
  success : Option Bool
  response : Option (List Char)
  error_message : Option (List Char)

/-- Attachment kind (part_005 line 5). -/
inductive AttKind where
  | link : AttKind
  | image : AttKind
  | file : AttKind
  | xmtp : AttKind
deriving DecidableEq, BEq

/-- Display name of an attachment kind. -/
def attTypeText : AttKind → List Char
  | AttKind.link => "link".toList
  | AttKind.image => "image".toList
  | AttKind.file => "file".toList
  | AttKind.xmtp => "xmtp".toList

/-- An attachment (part_005 lines 4-8); `url` and `json` may be absent or
null, collapsed here to `none`. -/
structure Attachment where
  type : AttKind
  url : Option (List Char)
  json : Option JValue

/-- An IntentKitMessage restricted to the fields the dispatcher reads
(part_005 lines 10-32). -/
structure IntentKitMsg where
  author_type : List Char
  message : List Char
  skill_calls : Option (List SkillCall)
  attachments : Option (List Attachment)

/-- Truthiness of an optional string. -/
def strOptTruthy : Option (List Char) → Bool
  | some s => !s.isEmpty
  | none => false

/-- One parameter entry of a skill call (part_005 lines 493-502): strings
are quoted raw, objects and arrays are stringified, other values are
template-coerced. -/
def renderParam (p : List Char × JValue) : List Char :=
  match p.2 with
  | JValue.str s => p.1 ++ (':' :: (' ' :: ('"' :: (s ++ ['"']))))
  | JValue.arr l => p.1 ++ (':' :: (' ' :: jsStringifyVal (JValue.arr l)))
  | JValue.obj fs => p.1 ++ (':' :: (' ' :: jsStringifyVal (JValue.obj fs)))
  | v => p.1 ++ (':' :: (' ' :: jsToString v))

/-- Parameter text of a skill call (part_005 lines 490-504). -/
def paramsText (call : SkillCall) : List Char :=
  match call.parameters with
  | some ps =>
    if 0 < ps.length then " with ".toList ++ joinSep ", ".toList (ps.map renderParam)
    else []
  | none => []

/-- One formatted skill call (part_005 lines 506-515): the base line, plus
the error message exactly when the call failed with a truthy message; a
successful call's response is never rendered. -/
def renderCall (call : SkillCall) : List Char :=
  let base := "🔧 Calling skill **".toList ++ call.name ++ "**".toList ++ paramsText call
  if call.success == some false && strOptTruthy call.error_message then
    base ++ "\n   ❌ Error: ".toList ++ call.error_message.getD []
  else base

/-- formatSkillCalls (part_005 lines 483-519). -/
def formatSkillCalls : Option (List SkillCall) → List Char
  | none => "🔧 **Skills activated** (no details available)".toList
  | some [] => "🔧 **Skills activated** (no details available)".toList
  | some (c :: t) => joinSep "\n\n".toList ((c :: t).map renderCall)

/-- hasXmtpAttachments (part_005 lines 524-526). -/
def hasXmtpAttachments (m : IntentKitMsg) : Bool :=
  match m.attachments with
  | some atts => atts.any (fun a => a.type == AttKind.xmtp)
  | none => false

/-- extractXmtpWalletSendCalls (part_005 lines 532-550): the json payload
of the first xmtp attachment, when truthy. -/
def extractXmtpWalletSendCalls (m : IntentKitMsg) : Option JValue :=
  match m.attachments with
  | none => none
  | some atts =>
    match atts.find? (fun a => a.type == AttKind.xmtp) with
    | none => none
    | some a =>
      match a.json with
      | some j => if truthy j then some j else none
      | none => none

/-- The single processed message returned to the dispatcher. -/
structure ProcessedMsg where
  content : JValue
  contentType : List Char
  displayText : List Char

/-- processIntentKitMessageForXmtp (part_005 lines 595-660): a truthy
xmtp wallet-send-calls attachment wins and is returned as the structured
content with a transaction summary as display text; otherwise the message
text, skill calls and non-xmtp attachment listing are joined into one text
payload. -/
def processIntentKitMessageForXmtp (m : IntentKitMsg) : ProcessedMsg :=
  match (if hasXmtpAttachments m then extractXmtpWalletSendCalls m else none) with
  | some wsc =>
    let d0 := m.message
    let displayText :=
      match jsGet wsc "calls".toList with
      | some (JValue.arr cl) =>
        let transactionText :=
          "💳 Transaction Request (".toList ++ natChars cl.length ++ " calls)".toList ++
            (match jsGet wsc "description".toList with
             | some dsc => if truthy dsc then "\n📝 ".toList ++ jsToString dsc else []
             | none => [])
        if d0.isEmpty then transactionText else d0 ++ "\n\n".toList ++ transactionText
      | _ => d0
    ⟨wsc, "xmtp/content-type-wallet-send-calls".toList, displayText⟩
  | none =>
    let d0 := m.message
    let d1 :=
      match m.skill_calls with
      | some cs =>
        if 0 < cs.length then
          if d0.isEmpty then formatSkillCalls (some cs)
          else d0 ++ "\n\n".toList ++ formatSkillCalls (some cs)
        else d0
      | none => d0
    let d2 :=
      match m.attachments with
      | some atts =>
        let nonX := atts.filter (fun a => !(a.type == AttKind.xmtp))
        if 0 < nonX.length then
          let attText :=
            "📎 Attachments (".toList ++ natChars nonX.length ++ "):".toList ++
              ((nonX.enum.map (fun p =>
                ('\n' :: natChars (p.1 + 1)) ++ ". ".toList ++ attTypeText p.2.type ++
                  ": ".toList ++
                  (match p.2.url with
                   | some u => if u.isEmpty then "embedded content".toList else u
                   | none => "embedded content".toList))).flatten)
          if d1.isEmpty then attText else d1 ++ "\n\n".toList ++ attText
        else d1
      | none => d1
    ⟨JValue.str d2, "text".toList, d2⟩

/-- An outbound send on the conversation. -/
inductive OutPayload where
  | walletSendCalls (content : JValue) : OutPayload
  | text (content : List Char) : OutPayload

/-- handleIntentKitResponse (index.ts lines 438-463) as the list of sends
it performs for one reply record.  The callee returns a single object, not
an array; the loop bound `processedMessages.length` is the `length`
property of that object, which is `undefined`, and `0 < undefined` is
false, so the loop body never executes and no payload is sent. -/
def handleIntentKitResponseSends (resp : IntentKitMsg) : List OutPayload :=
  let _processed := processIntentKitMessageForXmtp resp
  []

/-- A ReplyRecord whose only content is a transaction-request attachment. -/
def txOnlyRecord : IntentKitMsg :=
  ⟨"agent".toList, [], none,
    some [⟨AttKind.xmtp, none,
      some (JValue.obj [("calls".toList,
        JValue.arr [JValue.obj [("to".toList, JValue.str "0xabc".toList)]])])⟩]⟩

/-- C4: for a record whose only content is a wallet-send-calls attachment,
processIntentKitMessageForXmtp does produce the structured payload with a
non-empty textual summary, but handleIntentKitResponse iterates the
undefined `length` of that single object, so zero payloads are sent: the
dispatcher never emits the structured send or the summary. -/
theorem dispatch_transaction_record_sends_nothing :
    (handleIntentKitResponseSends txOnlyRecord).length = 0 ∧
    (processIntentKitMessageForXmtp txOnlyRecord).contentType =
      "xmtp/content-type-wallet-send-calls".toList ∧
    (processIntentKitMessageForXmtp txOnlyRecord).displayText ≠ [] :=
  ⟨rfl, by decide, by decide⟩

/-! ## Claim C9: tool-call records -/

lemma hasSeg_of_beg {l pat : List Char} (h : begB pat l = true) : hasSeg l pat = true := by
  cases l with
  | nil => exact h
  | cons c t => simp [hasSeg, h]

lemma hasSeg_append_left (u : List Char) {x pat : List Char} (h : hasSeg x pat = true) :
    hasSeg (u ++ x) pat = true := by
  induction u with
  | nil => exact h
  | cons c u2 ih =>
    rw [List.cons_append]
    show (begB pat (c :: (u2 ++ x)) || hasSeg (u2 ++ x) pat) = true
    rw [ih]
    simp

lemma hasSeg_decomp (u pat v : List Char) : hasSeg (u ++ (pat ++ v)) pat = true :=
  hasSeg_append_left u (hasSeg_of_beg (begB_self_append pat v))

lemma joinSep_mem_decomp (sep : List Char) {l : List (List Char)} {a : List Char}
    (ha : a ∈ l) : ∃ u v, joinSep sep l = u ++ (a ++ v) := by
  induction l with
  | nil => cases ha
  | cons x t ih =>
    rcases List.mem_cons.mp ha with hx | hx
    · subst hx
      cases t with
      | nil => exact ⟨[], [], by simp [joinSep]⟩
      | cons y t2 => exact ⟨[], sep ++ joinSep sep (y :: t2), by simp [joinSep]⟩
    · cases t with
      | nil => cases hx
      | cons y t2 =>
        obtain ⟨u, v, huv⟩ := ih hx
        exact ⟨x ++ sep ++ u, v, by simp [joinSep, huv, List.append_assoc]⟩

lemma renderCall_name_decomp (c : SkillCall) :
    ∃ u v, renderCall c = u ++ (c.name ++ v) := by
  unfold renderCall
  by_cases hc : (c.success == some false && strOptTruthy c.error_message) = true
  · rw [if_pos hc]
    exact ⟨"🔧 Calling skill **".toList,
      "**".toList ++ paramsText c ++ "\n   ❌ Error: ".toList ++ c.error_message.getD [],
      by simp [List.append_assoc]⟩
  · rw [if_neg hc]
    exact ⟨"🔧 Calling skill **".toList, "**".toList ++ paramsText c,
      by simp [List.append_assoc]⟩

lemma renderCall_error_decomp (c : SkillCall) (em : List Char)
    (hs : c.success = some false) (he : c.error_message = some em) (hne : em ≠ []) :
    ∃ u, renderCall c = u ++ (em ++ []) := by
  unfold renderCall
  have hc : (c.success == some false && strOptTruthy c.error_message) = true := by
    rw [hs, he]
    simp [strOptTruthy, hne]
  rw [if_pos hc, he]
  exact ⟨"🔧 Calling skill **".toList ++ c.name ++ "**".toList ++ paramsText c ++
    "\n   ❌ Error: ".toList, by simp [List.append_assoc, Option.getD]⟩

/-- Identity of two skill calls except possibly the raw response field. -/
def sameExceptResponse (c c2 : SkillCall) : Prop :=
  c2.name = c.name ∧ c2.parameters = c.parameters ∧ c2.success = c.success ∧
    c2.error_message = c.error_message

lemma renderCall_response_irrel {c c2 : SkillCall} (h : sameExceptResponse c c2) :
    renderCall c2 = renderCall c := by
  obtain ⟨h1, h2, h3, h4⟩ := h
  unfold renderCall paramsText
  rw [h1, h2, h3, h4]

lemma formatSkillCalls_response_irrel {cs cs2 : List SkillCall}
    (h : List.Forall₂ sameExceptResponse cs cs2) :
    formatSkillCalls (some cs2) = formatSkillCalls (some cs) := by
  have hmap : cs2.map renderCall = cs.map renderCall := by
    induction h with
    | nil => rfl
    | @cons a b l1 l2 hab htail ih =>
      simp only [List.map_cons, ih, renderCall_response_irrel hab]
  cases h with
  | nil => rfl
  | @cons a b l1 l2 hab htail =>
    show joinSep "\n\n".toList ((b :: l2).map renderCall) =
      joinSep "\n\n".toList ((a :: l1).map renderCall)
    rw [show (b :: l2).map renderCall = (a :: l1).map renderCall from hmap]

lemma process_toolcalls_eq (m : IntentKitMsg) (cs : List SkillCall)
    (hm : m.message = []) (ha : m.attachments = none ∨ m.attachments = some [])
    (hsc : m.skill_calls = some cs) (hcs : cs ≠ []) :
    processIntentKitMessageForXmtp m =
      ⟨JValue.str (formatSkillCalls (some cs)), "text".toList,
        formatSkillCalls (some cs)⟩ := by
  have hx : hasXmtpAttachments m = false := by
    rcases ha with ha | ha <;> simp [hasXmtpAttachments, ha]
  unfold processIntentKitMessageForXmtp
  rw [hx, hm, hsc]
  simp only [Bool.false_eq_true, if_false, List.isEmpty_nil, if_true,
    if_pos (List.length_pos.mpr hcs)]
  rcases ha with ha | ha <;> rw [ha]
  simp [List.filter_nil]

/-- C9: a record whose only content is tool calls is turned into exactly
one textual payload whose text contains every tool call's name and, for a
failed call, its error message; and the payload is invariant under any
change of the raw responses of the calls, so a successful call's response
body never appears. -/
theorem toolcall_record_single_text_payload (m : IntentKitMsg) (cs : List SkillCall)
    (hm : m.message = []) (ha : m.attachments = none ∨ m.attachments = some [])
    (hsc : m.skill_calls = some cs) (hcs : cs ≠ []) :
    (processIntentKitMessageForXmtp m).contentType = "text".toList ∧
    (processIntentKitMessageForXmtp m).content =
      JValue.str (processIntentKitMessageForXmtp m).displayText ∧
    (processIntentKitMessageForXmtp m).displayText = formatSkillCalls (some cs) ∧
    (∀ c ∈ cs, hasSeg (processIntentKitMessageForXmtp m).displayText c.name = true) ∧
    (∀ c ∈ cs, c.success = some false → ∀ em, c.error_message = some em → em ≠ [] →
      hasSeg (processIntentKitMessageForXmtp m).displayText em = true) ∧
    (∀ cs2, List.Forall₂ sameExceptResponse cs cs2 →
      processIntentKitMessageForXmtp { m with skill_calls := some cs2 } =
        processIntentKitMessageForXmtp m) := by
  have hp := process_toolcalls_eq m cs hm ha hsc hcs
  have hF : ∀ c ∈ cs, ∃ u v, formatSkillCalls (some cs) = u ++ (renderCall c ++ v) := by
    intro c hc
    cases cs with
    | nil => cases hc
    | cons c0 t0 =>
      exact joinSep_mem_decomp "\n\n".toList (List.mem_map_of_mem renderCall hc)
  refine ⟨by rw [hp], by rw [hp], by rw [hp], ?_, ?_, ?_⟩
  · intro c hc
    rw [hp]
    obtain ⟨u1, v1, h1⟩ := hF c hc
    obtain ⟨u2, v2, h2⟩ := renderCall_name_decomp c
    show hasSeg (formatSkillCalls (some cs)) c.name = true
    rw [h1, h2,
      show u1 ++ ((u2 ++ (c.name ++ v2)) ++ v1) = (u1 ++ u2) ++ (c.name ++ (v2 ++ v1)) by
        simp [List.append_assoc]]
    exact hasSeg_decomp _ _ _
  · intro c hc hsucc em herr hne
    rw [hp]
    obtain ⟨u1, v1, h1⟩ := hF c hc
    obtain ⟨u2, h2⟩ := renderCall_error_decomp c em hsucc herr hne
    show hasSeg (formatSkillCalls (some cs)) em = true
    rw [h1, h2,
      show u1 ++ (u2 ++ (em ++ []) ++ v1) = (u1 ++ u2) ++ (em ++ v1) by
        simp [List.append_assoc]]
    exact hasSeg_decomp _ _ _
  · intro cs2 hf
    have hcs2 : cs2 ≠ [] := by
      intro hnil
      subst hnil
      cases hf
      exact hcs rfl
    have hp2 := process_toolcalls_eq { m with skill_calls := some cs2 } cs2 hm ha rfl hcs2
    rw [hp2, hp, formatSkillCalls_response_irrel hf]

/-- A record that only carries one failed tool call. -/
def toolRecordEx : IntentKitMsg :=
  ⟨"skill".toList, [],
    some [⟨"web_search".toList, none, some false, some "raw resp".toList,
      some "boom".toList⟩], none⟩

/-- C9 (witness): one failed web-search call produces a text payload whose
text names the skill and carries the error message. -/
theorem toolcall_record_single_text_payload_witness :
    (processIntentKitMessageForXmtp toolRecordEx).contentType = "text".toList ∧
    hasSeg (processIntentKitMessageForXmtp toolRecordEx).displayText
      "web_search".toList = true ∧
    hasSeg (processIntentKitMessageForXmtp toolRecordEx).displayText
      "boom".toList = true := by
  have T := toolcall_record_single_text_payload toolRecordEx
    [⟨"web_search".toList, none, some false, some "raw resp".toList, some "boom".toList⟩]
    rfl (Or.inl rfl) rfl (by intro h; cases h)
  refine ⟨T.1, ?_, ?_⟩
  · exact T.2.2.2.1 _ (List.mem_cons_self _ _)
  · exact T.2.2.2.2.1 _ (List.mem_cons_self _ _) rfl "boom".toList rfl (by decide)
